import Mathlib

/-!
# Verification of `frc::UnscentedKalmanFilter`

Shallow embedding of
`wpimath/src/main/native/include/frc/estimator/UnscentedKalmanFilter.h`.

The filter core (constructor, `Reset`, `Predict`, `Correct`, setters) is
translated directly from the header.  The numerical collaborators it calls
(`MerweScaledSigmaPoints`, `UnscentedTransform`, `NumericalJacobianX`,
`DiscretizeAQTaylor`, `DiscretizeR`, `RungeKutta`, Eigen's LDLT solve,
`MakeCovMatrix`) live in other headers that are not part of the sources
under study, so they are kept abstract in a `Collab` bundle; concrete
spec-modelled instances are provided for the executable scenarios.
Matrices are over `ℚ`, standing in for IEEE doubles with exact arithmetic.
-/

namespace Frc

open Matrix

/-- Column vector of dimension `n` (an Eigen `Matrix<double, n, 1>`). -/
abbrev Vec (n : ℕ) : Type := Matrix (Fin n) (Fin 1) ℚ

/-- Matrix of dimension `m × n` (an Eigen `Matrix<double, m, n>`). -/
abbrev Mat (m n : ℕ) : Type := Matrix (Fin m) (Fin n) ℚ

/-- Column `j` of a matrix, as a column vector
(`M.template block<m, 1>(0, j)` in the source). -/
def col {m n : ℕ} (M : Mat m n) (j : Fin n) : Vec m :=
  Matrix.of fun i _ => M i j

/-- Modelled from the spec: the interface of the `MerweScaledSigmaPoints<States>`
collaborator (its implementation is in a header outside the studied sources).
It produces `2·States+1` sigma points from a mean and covariance, plus the
mean weights `Wm` and covariance weights `Wc`; `NumSigmas()` is the
compile-time constant `2·States+1`. -/
structure SigmaGen (S : ℕ) where
  sigmaPoints : Vec S → Mat S S → Mat S (2 * S + 1)
  Wm : Fin (2 * S + 1) → ℚ
  Wc : Fin (2 * S + 1) → ℚ

/-- Modelled from the spec: the bundle of numerical collaborators consumed by
the filter core, whose implementations live in headers outside the studied
sources.  `ut` is `UnscentedTransform<States, CovDim>`, `numericalJacobianX`
is `NumericalJacobianX`, `discretizeAQ` is `DiscretizeAQTaylor` (returning
the pair `(discA, discQ)`), `discretizeR` is `DiscretizeR`, `rungeKutta` is
`RungeKutta`, and `ldltSolve A B` is Eigen's `A.ldlt().solve(B)`. -/
structure Collab (S I O : ℕ) where
  pts : SigmaGen S
  ut : {R : ℕ} → Mat R (2 * S + 1) → (Fin (2 * S + 1) → ℚ) →
      (Fin (2 * S + 1) → ℚ) → Vec R × Mat R R
  numericalJacobianX : (Vec S → Vec I → Vec S) → Vec S → Vec I → Mat S S
  discretizeAQ : Mat S S → Mat S S → ℚ → Mat S S × Mat S S
  discretizeR : Mat O O → ℚ → Mat O O
  rungeKutta : (Vec S → Vec I → Vec S) → Vec S → Vec I → ℚ → Vec S
  ldltSolve : {n m : ℕ} → Mat n n → Mat n m → Mat n m

/-- The state of an `UnscentedKalmanFilter<States, Inputs, Outputs>` instance:
its stored model functions `m_f`, `m_h` and the numeric fields `m_xHat`,
`m_P`, `m_contQ`, `m_contR`, `m_discR`, `m_sigmasF`. -/
structure UKF (S I O : ℕ) where
  f : Vec S → Vec I → Vec S
  h : Vec S → Vec I → Vec O
  xHat : Vec S
  P : Mat S S
  contQ : Mat S S
  contR : Mat O O
  discR : Mat O O
  sigmasF : Mat S (2 * S + 1)

/-- Modelled from the spec: `frc::MakeCovMatrix` (in `frc/StateSpaceUtil.h`,
outside the studied sources) builds a diagonal covariance matrix from the
squared standard deviations. -/
def makeCovMatrix {n : ℕ} (stdDevs : Fin n → ℚ) : Mat n n :=
  Matrix.diagonal fun i => stdDevs i * stdDevs i

/-- `Reset()`: zeroes `m_xHat`, `m_P` and `m_sigmasF`. -/
def UKF.reset {S I O : ℕ} (s : UKF S I O) : UKF S I O :=
  { s with xHat := 0, P := 0, sigmasF := 0 }

/-- The constructor `UnscentedKalmanFilter(f, h, stateStdDevs,
measurementStdDevs, dt)`: builds `m_contQ` and `m_contR` with
`MakeCovMatrix`, seeds `m_discR` with `DiscretizeR(m_contR, dt)`, and calls
`Reset()` (zeroing `m_xHat`, `m_P`, `m_sigmasF`). -/
def UKF.construct {S I O : ℕ} (C : Collab S I O) (f : Vec S → Vec I → Vec S)
    (h : Vec S → Vec I → Vec O) (stateStdDevs : Fin S → ℚ)
    (measurementStdDevs : Fin O → ℚ) (dt : ℚ) : UKF S I O :=
  UKF.reset
    { f := f
      h := h
      xHat := 0
      P := 0
      contQ := makeCovMatrix stateStdDevs
      contR := makeCovMatrix measurementStdDevs
      discR := C.discretizeR (makeCovMatrix measurementStdDevs) dt
      sigmasF := 0 }

/-- `SetP(P)`. -/
def UKF.setP {S I O : ℕ} (s : UKF S I O) (P : Mat S S) : UKF S I O :=
  { s with P := P }

/-- `SetXhat(xHat)`. -/
def UKF.setXhat {S I O : ℕ} (s : UKF S I O) (xHat : Vec S) : UKF S I O :=
  { s with xHat := xHat }

/-- `Predict(u, dt)`: linearize (`NumericalJacobianX`), discretize the
process noise (`DiscretizeAQTaylor`), sample sigma points from the current
`(m_xHat, m_P)`, integrate each forward through `m_f` with `RungeKutta`
storing them in `m_sigmasF`, reduce `m_sigmasF` with `UnscentedTransform`
into the new `(m_xHat, m_P)`, add `discQ` to `m_P`, and refresh `m_discR`
with `DiscretizeR(m_contR, dt)`. -/
def UKF.predict {S I O : ℕ} (C : Collab S I O) (s : UKF S I O) (u : Vec I)
    (dt : ℚ) : UKF S I O :=
  let contA := C.numericalJacobianX s.f s.xHat u
  let discAQ := C.discretizeAQ contA s.contQ dt
  let sigmas := C.pts.sigmaPoints s.xHat s.P
  let sigmasF : Mat S (2 * S + 1) :=
    Matrix.of fun i j => (C.rungeKutta s.f (col sigmas j) u dt) i 0
  let ret := C.ut sigmasF C.pts.Wm C.pts.Wc
  { s with
    xHat := ret.1
    P := ret.2 + discAQ.2
    sigmasF := sigmasF
    discR := C.discretizeR s.contR dt }

/-- The measurement-space sigma points `sigmasH` of `Correct<Rows>`: sigma
points freshly sampled from the current `(m_xHat, m_P)`, each mapped
through `h(·, u)`. -/
def UKF.corrSigmasH {S I O : ℕ} (C : Collab S I O) (s : UKF S I O) {Rows : ℕ}
    (u : Vec I) (h : Vec S → Vec I → Vec Rows) : Mat Rows (2 * S + 1) :=
  Matrix.of fun i j => (h (col (C.pts.sigmaPoints s.xHat s.P) j) u) i 0

/-- The predicted measurement mean `yHat` of `Correct<Rows>`: first component
of the `UnscentedTransform` of `sigmasH`. -/
def UKF.corrYhat {S I O : ℕ} (C : Collab S I O) (s : UKF S I O) {Rows : ℕ}
    (u : Vec I) (h : Vec S → Vec I → Vec Rows) : Vec Rows :=
  (C.ut (UKF.corrSigmasH C s u h) C.pts.Wm C.pts.Wc).1

/-- The innovation covariance `Py` of `Correct<Rows>` after `Py += R`: second
component of the `UnscentedTransform` of `sigmasH`, plus `R`. -/
def UKF.corrPy {S I O : ℕ} (C : Collab S I O) (s : UKF S I O) {Rows : ℕ}
    (u : Vec I) (h : Vec S → Vec I → Vec Rows) (R : Mat Rows Rows) :
    Mat Rows Rows :=
  (C.ut (UKF.corrSigmasH C s u h) C.pts.Wm C.pts.Wc).2 + R

/-- The cross covariance `Pxy` of `Correct<Rows>`, as the source's
accumulation loop: starting from `Pxy.setZero()`, add
`Wc(i) * (m_sigmasF.col(i) - m_xHat) * (sigmasH.col(i) - yHat)ᵀ`
for `i = 0, …, NumSigmas()-1`. -/
def UKF.corrPxy {S I O : ℕ} (C : Collab S I O) (s : UKF S I O) {Rows : ℕ}
    (u : Vec I) (h : Vec S → Vec I → Vec Rows) : Mat S Rows :=
  (List.finRange (2 * S + 1)).foldl
    (fun acc i => acc + C.pts.Wc i •
      ((col s.sigmasF i - s.xHat) * (col (UKF.corrSigmasH C s u h) i - UKF.corrYhat C s u h)ᵀ))
    0

/-- The Kalman gain `K` of `Correct<Rows>`:
`Py.transpose().ldlt().solve(Pxy.transpose()).transpose()`. -/
def UKF.corrK {S I O : ℕ} (C : Collab S I O) (s : UKF S I O) {Rows : ℕ}
    (u : Vec I) (h : Vec S → Vec I → Vec Rows) (R : Mat Rows Rows) :
    Mat S Rows :=
  (C.ldltSolve (UKF.corrPy C s u h R)ᵀ (UKF.corrPxy C s u h)ᵀ)ᵀ

/-- The generic `Correct<Rows>(u, y, h, R)`: computes `sigmasH`, `yHat`,
`Py`, `Pxy` and `K` as above, then updates
`m_xHat += K (y - yHat)` and `m_P -= K Py Kᵀ`. -/
def UKF.correctWith {S I O : ℕ} (C : Collab S I O) (s : UKF S I O) {Rows : ℕ}
    (u : Vec I) (y : Vec Rows) (h : Vec S → Vec I → Vec Rows)
    (R : Mat Rows Rows) : UKF S I O :=
  let yHat := UKF.corrYhat C s u h
  let Py := UKF.corrPy C s u h R
  let K := UKF.corrK C s u h R
  { s with
    xHat := s.xHat + K * (y - yHat)
    P := s.P - K * Py * Kᵀ }

/-- The two-argument `Correct(u, y)`: delegates to
`Correct<Outputs>(u, y, m_h, m_discR)`. -/
def UKF.correct {S I O : ℕ} (C : Collab S I O) (s : UKF S I O) (u : Vec I)
    (y : Vec O) : UKF S I O :=
  UKF.correctWith C s u y s.h s.discR

/-- One public mutating operation on a filter instance: `Predict(u, dt)`,
two-argument `Correct(u, y)`, or generic `Correct<Rows>(u, y, h, R)`. -/
inductive UKFOp (S I O : ℕ) where
  | predictOp (u : Vec I) (dt : ℚ) : UKFOp S I O
  | correctOp (u : Vec I) (y : Vec O) : UKFOp S I O
  | correctGenOp (Rows : ℕ) (u : Vec I) (y : Vec Rows)
      (h : Vec S → Vec I → Vec Rows) (R : Mat Rows Rows) : UKFOp S I O

/-- Apply one operation to the filter state. -/
def UKF.applyOp {S I O : ℕ} (C : Collab S I O) (s : UKF S I O) :
    UKFOp S I O → UKF S I O
  | .predictOp u dt => UKF.predict C s u dt
  | .correctOp u y => UKF.correct C s u y
  | .correctGenOp _ u y h R => UKF.correctWith C s u y h R

/-- Run a finite sequence of `Predict`/`Correct` calls in order. -/
def UKF.runOps {S I O : ℕ} (C : Collab S I O) (s : UKF S I O) :
    List (UKFOp S I O) → UKF S I O
  | [] => s
  | op :: rest => UKF.runOps C (UKF.applyOp C s op) rest

/-- The collaborators return symmetric covariances: the unscented-transform
covariance is always symmetric, and the noise discretizers preserve
symmetry. -/
def Collab.SymCov {S I O : ℕ} (C : Collab S I O) : Prop :=
  (∀ (R : ℕ) (M : Mat R (2 * S + 1)) (wm wc : Fin (2 * S + 1) → ℚ),
      ((C.ut M wm wc).2).IsSymm) ∧
  (∀ (A Q : Mat S S) (dt : ℚ), Q.IsSymm → ((C.discretizeAQ A Q dt).2).IsSymm) ∧
  (∀ (R : Mat O O) (dt : ℚ), R.IsSymm → (C.discretizeR R dt).IsSymm)

/-- The measurement-noise matrix carried by a generic `Correct` call is
symmetric (other operations carry none). -/
def UKFOp.RSymmOk {S I O : ℕ} : UKFOp S I O → Prop
  | .correctGenOp _ _ _ _ R => R.IsSymm
  | _ => True

/-- Modelled from the spec: an exact integer-part square root on `ℚ`,
standing in for the matrix square root inside the sigma-point collaborator;
it is exact on perfect rational squares, which is all the executable
scenarios use. -/
def ratSqrt (q : ℚ) : ℚ := (Nat.sqrt q.num.natAbs : ℚ) / (Nat.sqrt q.den : ℚ)

/-- Modelled from the spec: the `UnscentedTransform` collaborator, the
weighted reduction of a sigma-point set to a mean and covariance. -/
def specUT {S R : ℕ} (M : Mat R (2 * S + 1)) (wm wc : Fin (2 * S + 1) → ℚ) :
    Vec R × Mat R R :=
  let mean : Vec R := ∑ i, wm i • col M i
  (mean, ∑ i, wc i • ((col M i - mean) * (col M i - mean)ᵀ))

/-- Modelled from the spec: the `RungeKutta` fixed-step integrator
collaborator, one classical fourth-order step. -/
def rungeKutta4 {S I : ℕ} (f : Vec S → Vec I → Vec S) (x : Vec S) (u : Vec I)
    (dt : ℚ) : Vec S :=
  let k1 := f x u
  let k2 := f (x + (dt / 2) • k1) u
  let k3 := f (x + (dt / 2) • k2) u
  let k4 := f (x + dt • k3) u
  x + (dt / 6) • (k1 + (2 : ℚ) • k2 + (2 : ℚ) • k3 + k4)

/-- Standard basis column vector. -/
def basisVec {n : ℕ} (j : Fin n) : Vec n :=
  Matrix.of fun r _ => if r = j then 1 else 0

/-- Modelled from the spec: the `NumericalJacobianX` collaborator,
a central finite-difference Jacobian of `f` in `x`. -/
def numJacX {S I : ℕ} (f : Vec S → Vec I → Vec S) (x : Vec S) (u : Vec I) :
    Mat S S :=
  Matrix.of fun i j =>
    ((f (x + (1/1024 : ℚ) • basisVec j) u -
      f (x - (1/1024 : ℚ) • basisVec j) u) i 0) * 512

/-- Modelled from the spec: the `DiscretizeAQTaylor` collaborator, a
first-order Taylor discretization returning `(I + dt·A, dt·Qc)`. -/
def discAQ1 {S : ℕ} (A Q : Mat S S) (dt : ℚ) : Mat S S × Mat S S :=
  (1 + dt • A, dt • Q)

/-- Modelled from the spec: the `DiscretizeR` collaborator as the
discretization stub of the spec's scalar scenario, returning `Rc`
unchanged. -/
def discRStub {O : ℕ} (R : Mat O O) (_dt : ℚ) : Mat O O := R

/-- Modelled from the spec: the LDLT linear-solve collaborator as a
diagonal solver, exact whenever `A` is diagonal (in particular for the
one-dimensional scenarios). -/
def diagSolve {n m : ℕ} (A : Mat n n) (B : Mat n m) : Mat n m :=
  Matrix.of fun i j => B i j / A i i

/-- Modelled from the spec: a `MerweScaledSigmaPoints<1>` collaborator
instance with spread parameters `alpha = 1`, `beta = 2`, `kappa = 0`
(so `lambda = 0`): points `x̂`, `x̂ + √P`, `x̂ − √P` with mean weights
`(0, 1/2, 1/2)` (summing to 1) and covariance weights `(2, 1/2, 1/2)`. -/
def scalarSigmaGen : SigmaGen 1 where
  sigmaPoints x P := Matrix.of fun i j =>
    ![x i 0, x i 0 + ratSqrt (P 0 0), x i 0 - ratSqrt (P 0 0)] j
  Wm := ![0, 1/2, 1/2]
  Wc := ![2, 1/2, 1/2]

/-- Modelled from the spec: the full collaborator bundle for the
one-dimensional executable scenarios. -/
def scalarCollab : Collab 1 1 1 where
  pts := scalarSigmaGen
  ut := fun M wm wc => specUT M wm wc
  numericalJacobianX := numJacX
  discretizeAQ := discAQ1
  discretizeR := discRStub
  rungeKutta := rungeKutta4
  ldltSolve := fun A B => diagSolve A B

/-- The 1×1 matrix (or 1-vector) with entry `q`. -/
def sc1 (q : ℚ) : Vec 1 := Matrix.of fun _ _ => q

/-- The scalar scenario's dynamics `f(x, u) = 0`. -/
def c4F : Vec 1 → Vec 1 → Vec 1 := fun _ _ => 0

/-- The scalar scenario's measurement model `h(x, u) = x`. -/
def c4H : Vec 1 → Vec 1 → Vec 1 := fun x _ => x

/-- Scalar scenario, initial filter: `States = Inputs = Outputs = 1`,
process-noise std 0, measurement-noise std 1, nominal `dt = 1`,
then `SetP(4)` (so `x̂ = 0`, `P = 4`). -/
def c4S0 : UKF 1 1 1 :=
  (UKF.construct scalarCollab c4F c4H (fun _ => 0) (fun _ => 1) 1).setP (sc1 4)

/-- Scalar scenario after `Predict(u = 0, dt = 1)`. -/
def c4S1 : UKF 1 1 1 := UKF.predict scalarCollab c4S0 0 1

/-- Scalar scenario after the subsequent `Correct(u = 0, y = 2, h, R = 1)`. -/
def c4S2 : UKF 1 1 1 :=
  UKF.correctWith scalarCollab c4S1 0 (sc1 2) c4H (sc1 1)

/-- Contracting dynamics `f(x, u) = −x` for the trace-monotonicity
scenario. -/
def c9F : Vec 1 → Vec 1 → Vec 1 := fun x _ => -x

/-- Trace scenario, initial filter: contracting dynamics, positive
process-noise std `1/2`, then `SetP(1)`. -/
def c9S0 : UKF 1 1 1 :=
  (UKF.construct scalarCollab c9F c4H (fun _ => 1/2) (fun _ => 1) 1).setP (sc1 1)

/-- Trace scenario after one `Predict(u = 0, dt = 1)`. -/
def c9S1 : UKF 1 1 1 := UKF.predict scalarCollab c9S0 0 1

/-- Trace scenario after a second `Predict(u = 0, dt = 1)`. -/
def c9S2 : UKF 1 1 1 := UKF.predict scalarCollab c9S1 0 1

/-! ### Helper lemmas -/

lemma vec3_app0 {α : Type*} (a b c : α) :
    (![a, b, c] : Fin (2 * 1 + 1) → α) 0 = a := rfl

lemma vec3_app1 {α : Type*} (a b c : α) :
    (![a, b, c] : Fin (2 * 1 + 1) → α) 1 = b := rfl

lemma vec3_app2 {α : Type*} (a b c : α) :
    (![a, b, c] : Fin (2 * 1 + 1) → α) 2 = c := rfl

lemma sum_fin_sigma1 {M : Type*} [AddCommMonoid M] (f : Fin (2 * 1 + 1) → M) :
    ∑ i, f i = f 0 + f 1 + f 2 := Fin.sum_univ_three f

lemma foldl_add_sum {α : Type*} {M : Type*} [AddCommMonoid M] (g : α → M) :
    ∀ (l : List α) (init : M),
      l.foldl (fun acc x => acc + g x) init = init + (l.map g).sum := by
  intro l
  induction l with
  | nil => intro init; simp
  | cons hd tl ih => intro init; simp [ih, add_assoc]

/-- The source's `Pxy` accumulation loop computes the weighted sum
`Σᵢ Wc(i) · (Sf.col(i) − x̂) · (sigmasH.col(i) − yHat)ᵀ`. -/
lemma corrPxy_eq_sum {S I O : ℕ} (C : Collab S I O) (s : UKF S I O) {Rows : ℕ}
    (u : Vec I) (h : Vec S → Vec I → Vec Rows) :
    UKF.corrPxy C s u h =
      ∑ i, C.pts.Wc i •
        ((col s.sigmasF i - s.xHat) *
          (col (UKF.corrSigmasH C s u h) i - UKF.corrYhat C s u h)ᵀ) := by
  rw [UKF.corrPxy, foldl_add_sum, zero_add, ← Fin.sum_univ_def]

lemma mat1_ext (A B : Mat 1 1) (hAB : A 0 0 = B 0 0) : A = B := by
  ext i j
  fin_cases i
  fin_cases j
  exact hAB

/-- The covariance produced by the spec-modelled unscented transform is
symmetric. -/
lemma specUT_cov_isSymm {S R : ℕ} (M : Mat R (2 * S + 1))
    (wm wc : Fin (2 * S + 1) → ℚ) : ((specUT M wm wc).2).IsSymm := by
  unfold Matrix.IsSymm specUT
  rw [Matrix.transpose_sum]
  refine Finset.sum_congr rfl fun i _ => ?_
  rw [Matrix.transpose_smul, Matrix.transpose_mul, Matrix.transpose_transpose]

/-- `Predict` always leaves a symmetric `P` when the collaborators return
symmetric covariances (the new `P` is the sum of the unscented-transform
covariance and `discQ`). -/
lemma predict_isSymm_P {S I O : ℕ} (C : Collab S I O) (s : UKF S I O)
    (u : Vec I) (dt : ℚ) (hC : C.SymCov) (hQ : s.contQ.IsSymm) :
    ((UKF.predict C s u dt).P).IsSymm := by
  exact Matrix.IsSymm.add (hC.1 _ _ _ _) (hC.2.1 _ _ _ hQ)

/-- The generic `Correct` preserves symmetry of `P` when `Py` is symmetric:
the subtracted term `K Py Kᵀ` is then symmetric. -/
lemma correctWith_isSymm_P {S I O : ℕ} (C : Collab S I O) (s : UKF S I O)
    {Rows : ℕ} (u : Vec I) (y : Vec Rows) (h : Vec S → Vec I → Vec Rows)
    (R : Mat Rows Rows) (hC : C.SymCov) (hP : s.P.IsSymm) (hR : R.IsSymm) :
    ((UKF.correctWith C s u y h R).P).IsSymm := by
  have hPy : (UKF.corrPy C s u h R).IsSymm :=
    Matrix.IsSymm.add (hC.1 _ _ _ _) hR
  have hKPK : (UKF.corrK C s u h R * UKF.corrPy C s u h R *
      (UKF.corrK C s u h R)ᵀ).IsSymm := by
    unfold Matrix.IsSymm
    rw [Matrix.transpose_mul, Matrix.transpose_mul, Matrix.transpose_transpose,
      hPy.eq, Matrix.mul_assoc]
  exact Matrix.IsSymm.sub hP hKPK

/-- Symmetry of `P` and `discR` is invariant under any operation sequence,
for collaborators returning symmetric covariances. -/
lemma runOps_isSymm {S I O : ℕ} (C : Collab S I O) (hC : C.SymCov) :
    ∀ (ops : List (UKFOp S I O)) (s : UKF S I O), s.P.IsSymm →
      s.discR.IsSymm → s.contQ.IsSymm → s.contR.IsSymm →
      (∀ op ∈ ops, op.RSymmOk) →
      ((UKF.runOps C s ops).P).IsSymm ∧ ((UKF.runOps C s ops).discR).IsSymm := by
  intro ops
  induction ops with
  | nil => intro s hP hR hQ hCR _; exact ⟨hP, hR⟩
  | cons op rest ih =>
    intro s hP hR hQ hCR hops
    have hop : op.RSymmOk := hops op (List.mem_cons_self op rest)
    have hrest : ∀ o ∈ rest, o.RSymmOk := fun o ho =>
      hops o (List.mem_cons_of_mem op ho)
    cases op with
    | predictOp u dt =>
      exact ih (UKF.predict C s u dt) (predict_isSymm_P C s u dt hC hQ)
        (hC.2.2 _ _ hCR) hQ hCR hrest
    | correctOp u y =>
      exact ih (UKF.correct C s u y)
        (correctWith_isSymm_P C s u y s.h s.discR hC hP hR) hR hQ hCR hrest
    | correctGenOp Rows u y h R =>
      exact ih (UKF.correctWith C s u y h R)
        (correctWith_isSymm_P C s u y h R hC hP hop) hR hQ hCR hrest

/-! ### Claim theorems -/

/-- C2: `Predict(u, dt)` with `dt > 0` samples sigma points from the current
`(x̂, P)`, integrates each forward by `dt` through `f`, stores the result in
`Sf` (overwriting the cache), takes the new `(x̂, P)` as the unscented
transform of `Sf` with the generator's weights, adds to `P` the process
noise discretized from the Jacobian of `f` at `(x̂, u)`, `Qc` and `dt`, and
recomputes `Rd` from `Rc` at this `dt`. -/
theorem predict_step_characterization {S I O : ℕ} (C : Collab S I O)
    (s : UKF S I O) (u : Vec I) (dt : ℚ) (_hdt : 0 < dt) :
    (UKF.predict C s u dt).sigmasF =
      (Matrix.of fun i j =>
        (C.rungeKutta s.f (col (C.pts.sigmaPoints s.xHat s.P) j) u dt) i 0) ∧
    (UKF.predict C s u dt).xHat =
      (C.ut (UKF.predict C s u dt).sigmasF C.pts.Wm C.pts.Wc).1 ∧
    (UKF.predict C s u dt).P =
      (C.ut (UKF.predict C s u dt).sigmasF C.pts.Wm C.pts.Wc).2 +
        (C.discretizeAQ (C.numericalJacobianX s.f s.xHat u) s.contQ dt).2 ∧
    (UKF.predict C s u dt).discR = C.discretizeR s.contR dt :=
  ⟨rfl, rfl, rfl, rfl⟩

/-- C2 witness: the characterization instantiated at the scalar scenario's
`Predict(0, 1)` call. -/
theorem predict_step_characterization_witness :
    (UKF.predict scalarCollab c4S0 0 1).discR =
      scalarCollab.discretizeR c4S0.contR 1 :=
  (predict_step_characterization scalarCollab c4S0 0 1 (by decide)).2.2.2

/-- C3: the cross covariance `Pxy` computed by `Correct` is
`Σᵢ Wc(i) · (Sf[i] − x̂) · (ŷᵢ − ŷ)ᵀ`, where `Sf` is the cached sigma-point
matrix held in the filter state (filled by the most recent `Predict`), while
`ŷᵢ` are the images under `h` of sigma points freshly re-sampled from the
current `(x̂, P)` and `ŷ` is their unscented-transform mean. -/
theorem correct_cross_covariance {S I O : ℕ} (C : Collab S I O)
    (s : UKF S I O) {Rows : ℕ} (u : Vec I) (h : Vec S → Vec I → Vec Rows) :
    UKF.corrPxy C s u h =
      ∑ i, C.pts.Wc i •
        ((col s.sigmasF i - s.xHat) *
          (col (Matrix.of fun r j =>
              (h (col (C.pts.sigmaPoints s.xHat s.P) j) u) r 0) i -
            (C.ut (Matrix.of fun r j =>
              (h (col (C.pts.sigmaPoints s.xHat s.P) j) u) r 0)
              C.pts.Wm C.pts.Wc).1)ᵀ) :=
  corrPxy_eq_sum C s u h

/-- C7: both forms of `Correct` write only `x̂` and `P`: the cached sigma
points `Sf` and the fields `Qc`, `Rc`, `Rd`, `f`, `h` are unchanged. -/
theorem correct_frame {S I O : ℕ} (C : Collab S I O) (s : UKF S I O)
    {Rows : ℕ} (u : Vec I) (y : Vec Rows) (h : Vec S → Vec I → Vec Rows)
    (R : Mat Rows Rows) (y₂ : Vec O) :
    (UKF.correctWith C s u y h R).sigmasF = s.sigmasF ∧
    (UKF.correctWith C s u y h R).contQ = s.contQ ∧
    (UKF.correctWith C s u y h R).contR = s.contR ∧
    (UKF.correctWith C s u y h R).discR = s.discR ∧
    (UKF.correctWith C s u y h R).f = s.f ∧
    (UKF.correctWith C s u y h R).h = s.h ∧
    (UKF.correct C s u y₂).sigmasF = s.sigmasF ∧
    (UKF.correct C s u y₂).contQ = s.contQ ∧
    (UKF.correct C s u y₂).contR = s.contR ∧
    (UKF.correct C s u y₂).discR = s.discR ∧
    (UKF.correct C s u y₂).f = s.f ∧
    (UKF.correct C s u y₂).h = s.h :=
  ⟨rfl, rfl, rfl, rfl, rfl, rfl, rfl, rfl, rfl, rfl, rfl, rfl⟩

/-- C8: a freshly constructed or just-reset filter has `Sf = 0` and
`x̂ = 0`, and a `Correct` issued in any such state computes an all-zero
cross covariance `Pxy`. -/
theorem correct_before_predict {S I O : ℕ} (C : Collab S I O)
    (s t : UKF S I O) {Rows : ℕ} (u : Vec I) (h : Vec S → Vec I → Vec Rows)
    (f₀ : Vec S → Vec I → Vec S) (h₀ : Vec S → Vec I → Vec O)
    (std : Fin S → ℚ) (mstd : Fin O → ℚ) (dt₀ : ℚ)
    (hs : s.sigmasF = 0) (hx : s.xHat = 0) :
    (UKF.reset t).sigmasF = 0 ∧ (UKF.reset t).xHat = 0 ∧
    (UKF.construct C f₀ h₀ std mstd dt₀).sigmasF = 0 ∧
    (UKF.construct C f₀ h₀ std mstd dt₀).xHat = 0 ∧
    UKF.corrPxy C s u h = 0 := by
  refine ⟨rfl, rfl, rfl, rfl, ?_⟩
  rw [corrPxy_eq_sum, hs, hx]
  have hcol : ∀ i : Fin (2 * S + 1), col (0 : Mat S (2 * S + 1)) i = 0 :=
    fun i => rfl
  refine Finset.sum_eq_zero fun i _ => ?_
  rw [hcol i, sub_zero, Matrix.zero_mul, smul_zero]

/-- C8 witness: a `Correct` right after `Reset()` (on a filter that has run
a full predict/correct cycle before) has an all-zero cross covariance. -/
theorem correct_before_predict_witness :
    UKF.corrPxy scalarCollab (UKF.reset c4S2) 0 c4H = 0 :=
  (correct_before_predict scalarCollab (UKF.reset c4S2) c4S2 0 c4H c4F c4H
    (fun _ => 0) (fun _ => 1) 1 rfl rfl).2.2.2.2

/-- C10: `Reset()` does not touch `Rd`: it keeps the value seeded by the
constructor at the nominal `dt` or refreshed by the most recent `Predict`,
and a two-argument `Correct` after `Reset()` consumes exactly that retained
`Rd` (and the stored `h`). -/
theorem reset_keeps_discR {S I O : ℕ} (C : Collab S I O) (s : UKF S I O)
    (u : Vec I) (y : Vec O) (f₀ : Vec S → Vec I → Vec S)
    (h₀ : Vec S → Vec I → Vec O) (std : Fin S → ℚ) (mstd : Fin O → ℚ)
    (dt₀ dt : ℚ) :
    (UKF.reset s).discR = s.discR ∧
    (UKF.construct C f₀ h₀ std mstd dt₀).discR =
      C.discretizeR (makeCovMatrix mstd) dt₀ ∧
    (UKF.predict C s u dt).discR = C.discretizeR s.contR dt ∧
    UKF.correct C (UKF.reset s) u y =
      UKF.correctWith C (UKF.reset s) u y s.h s.discR :=
  ⟨rfl, rfl, rfl, rfl⟩

/-- C1: in `Correct(u, y, h, R)` the predicted measurement mean `ŷ` and
covariance `Py` are the unscented transform of sigma points freshly sampled
from the current `(x̂, P)` and mapped through `h`, with `R` added to `Py`;
assuming the LDLT collaborator solves its system at this input, the gain
satisfies `Pyᵀ Kᵀ = Pxyᵀ` and equals `Pxy · Py⁻¹` for any two-sided inverse
of `Py`; and the posterior is exactly `x̂ + K (y − ŷ)` and `P − K Py Kᵀ`. -/
theorem correct_gain_and_posterior {S I O : ℕ} (C : Collab S I O)
    (s : UKF S I O) {Rows : ℕ} (u : Vec I) (y : Vec Rows)
    (h : Vec S → Vec I → Vec Rows) (R : Mat Rows Rows)
    (hsolve : (UKF.corrPy C s u h R)ᵀ *
      C.ldltSolve (UKF.corrPy C s u h R)ᵀ (UKF.corrPxy C s u h)ᵀ =
      (UKF.corrPxy C s u h)ᵀ) :
    UKF.corrYhat C s u h =
      (C.ut (Matrix.of fun r j =>
        (h (col (C.pts.sigmaPoints s.xHat s.P) j) u) r 0) C.pts.Wm C.pts.Wc).1 ∧
    UKF.corrPy C s u h R =
      (C.ut (Matrix.of fun r j =>
        (h (col (C.pts.sigmaPoints s.xHat s.P) j) u) r 0) C.pts.Wm C.pts.Wc).2
        + R ∧
    (UKF.corrPy C s u h R)ᵀ * (UKF.corrK C s u h R)ᵀ =
      (UKF.corrPxy C s u h)ᵀ ∧
    (∀ Pinv : Mat Rows Rows, UKF.corrPy C s u h R * Pinv = 1 →
      Pinv * UKF.corrPy C s u h R = 1 →
      UKF.corrK C s u h R = UKF.corrPxy C s u h * Pinv) ∧
    (UKF.correctWith C s u y h R).xHat =
      s.xHat + UKF.corrK C s u h R * (y - UKF.corrYhat C s u h) ∧
    (UKF.correctWith C s u y h R).P =
      s.P - UKF.corrK C s u h R * UKF.corrPy C s u h R *
        (UKF.corrK C s u h R)ᵀ := by
  have hK : (UKF.corrPy C s u h R)ᵀ * (UKF.corrK C s u h R)ᵀ =
      (UKF.corrPxy C s u h)ᵀ := by
    rw [UKF.corrK, Matrix.transpose_transpose]
    exact hsolve
  have hKP : UKF.corrK C s u h R * UKF.corrPy C s u h R =
      UKF.corrPxy C s u h := by
    have := congrArg Matrix.transpose hK
    rwa [Matrix.transpose_mul, Matrix.transpose_transpose,
      Matrix.transpose_transpose, Matrix.transpose_transpose] at this
  refine ⟨rfl, rfl, hK, ?_, rfl, rfl⟩
  intro Pinv hPi hPi'
  calc UKF.corrK C s u h R
      = UKF.corrK C s u h R * (UKF.corrPy C s u h R * Pinv) := by
        rw [hPi, Matrix.mul_one]
    _ = UKF.corrK C s u h R * UKF.corrPy C s u h R * Pinv := by
        rw [Matrix.mul_assoc]
    _ = UKF.corrPxy C s u h * Pinv := by rw [hKP]

/-- The diagonal LDLT stand-in solves the scalar scenario's gain system
exactly. -/
lemma c1_solver_fact :
    (UKF.corrPy scalarCollab c4S1 0 c4H (sc1 1))ᵀ *
      scalarCollab.ldltSolve (UKF.corrPy scalarCollab c4S1 0 c4H (sc1 1))ᵀ
        (UKF.corrPxy scalarCollab c4S1 0 c4H)ᵀ =
      (UKF.corrPxy scalarCollab c4S1 0 c4H)ᵀ := by
  refine mat1_ext _ _ ?_
  norm_num [c4S1, c4S0, c4F, c4H, UKF.corrPy, UKF.corrYhat, UKF.corrSigmasH,
    corrPxy_eq_sum, UKF.predict, UKF.construct, UKF.reset, UKF.setP,
    scalarCollab, scalarSigmaGen, specUT, rungeKutta4, discAQ1, discRStub,
    diagSolve, makeCovMatrix, col, ratSqrt, sc1, sum_fin_sigma1,
    Matrix.add_apply, Matrix.sub_apply, Matrix.smul_apply, Matrix.mul_apply,
    Matrix.transpose_apply, Matrix.zero_apply, Matrix.diagonal_apply,
    Matrix.of_apply, Fin.sum_univ_one, smul_eq_mul, vec3_app0, vec3_app1,
    vec3_app2, Matrix.neg_apply, Int.natAbs_ofNat]

/-- C1 witness: the gain/posterior characterization instantiated at the
scalar scenario's `Correct` call (where `Py = 5` is invertible and the
solver is exact). -/
theorem correct_gain_and_posterior_witness :
    (UKF.correctWith scalarCollab c4S1 0 (sc1 2) c4H (sc1 1)).P =
      c4S1.P - UKF.corrK scalarCollab c4S1 0 c4H (sc1 1) *
        UKF.corrPy scalarCollab c4S1 0 c4H (sc1 1) *
        (UKF.corrK scalarCollab c4S1 0 c4H (sc1 1))ᵀ :=
  (correct_gain_and_posterior scalarCollab c4S1 0 (sc1 2) c4H (sc1 1)
    c1_solver_fact).2.2.2.2.2

/-- C5: starting from a symmetric `P` (with symmetric stored noise
matrices) and collaborators that return symmetric covariances, `P` is still
symmetric after every finite sequence of `Predict` and `Correct` calls
whose explicitly supplied measurement noises are symmetric. -/
theorem covariance_symmetry {S I O : ℕ} (C : Collab S I O) (s : UKF S I O)
    (ops : List (UKFOp S I O)) (hC : C.SymCov) (hP : s.P.IsSymm)
    (hR : s.discR.IsSymm) (hQ : s.contQ.IsSymm) (hCR : s.contR.IsSymm)
    (hops : ∀ op ∈ ops, op.RSymmOk) :
    ((UKF.runOps C s ops).P).IsSymm :=
  (runOps_isSymm C hC ops s hP hR hQ hCR hops).1

/-- A 1×1 matrix is symmetric. -/
lemma mat1_isSymm (A : Mat 1 1) : A.IsSymm := by
  refine mat1_ext _ _ ?_
  rw [Matrix.transpose_apply]

/-- The scalar collaborator bundle returns symmetric covariances. -/
lemma scalarCollab_symCov : scalarCollab.SymCov := by
  refine ⟨fun R M wm wc => specUT_cov_isSymm M wm wc, ?_, fun R dt hR => hR⟩
  intro A Q dt hQ
  show (dt • Q).IsSymm
  unfold Matrix.IsSymm
  rw [Matrix.transpose_smul, hQ.eq]

/-- C5 witness: initial state of the symmetry scenario (freshly constructed
scalar filter). -/
def c5w0 : UKF 1 1 1 :=
  UKF.construct scalarCollab c4F c4H (fun _ => 0) (fun _ => 1) 1

/-- C5 witness: a three-operation history exercising `Predict`, the
two-argument `Correct` and the generic `Correct`. -/
def c5wOps : List (UKFOp 1 1 1) :=
  [UKFOp.predictOp 0 1, UKFOp.correctOp 0 (sc1 2),
    UKFOp.correctGenOp 1 0 (sc1 3) c4H (sc1 1)]

lemma c5w0_P_isSymm : c5w0.P.IsSymm := mat1_isSymm _

lemma c5w0_discR_isSymm : c5w0.discR.IsSymm := mat1_isSymm _

lemma c5w0_contQ_isSymm : c5w0.contQ.IsSymm := mat1_isSymm _

lemma c5w0_contR_isSymm : c5w0.contR.IsSymm := mat1_isSymm _

lemma c5wOps_ok : ∀ op ∈ c5wOps, op.RSymmOk := by
  intro op hop
  simp only [c5wOps, List.mem_cons, List.not_mem_nil, or_false] at hop
  rcases hop with h1 | h2 | h3
  · subst h1; exact trivial
  · subst h2; exact trivial
  · subst h3; exact mat1_isSymm _

/-- C5 witness: `P` is symmetric after running the three-operation history
on the scalar filter. -/
theorem covariance_symmetry_witness :
    ((UKF.runOps scalarCollab c5w0 c5wOps).P).IsSymm :=
  covariance_symmetry scalarCollab c5w0 c5wOps scalarCollab_symCov
    c5w0_P_isSymm c5w0_discR_isSymm c5w0_contQ_isSymm c5w0_contR_isSymm
    c5wOps_ok

/-- C6: `Reset()` zeroes `x̂`, `P` and `Sf` while leaving `Qc`, `Rc`, `f`
and `h` unchanged, and a `Predict(u, dt)` issued right after `Reset()`
produces exactly the same `x̂`, `P`, `Rd` and `Sf` as the same call on a
freshly constructed filter with identical constructor arguments. -/
theorem reset_clears_state {S I O : ℕ} (C : Collab S I O) (s : UKF S I O)
    (f₀ : Vec S → Vec I → Vec S) (h₀ : Vec S → Vec I → Vec O)
    (std : Fin S → ℚ) (mstd : Fin O → ℚ) (dt₀ : ℚ) (u : Vec I) (dt : ℚ)
    (hf : s.f = f₀) (hQ : s.contQ = makeCovMatrix std)
    (hR : s.contR = makeCovMatrix mstd) :
    (UKF.reset s).xHat = 0 ∧ (UKF.reset s).P = 0 ∧
    (UKF.reset s).sigmasF = 0 ∧
    (UKF.reset s).contQ = s.contQ ∧ (UKF.reset s).contR = s.contR ∧
    (UKF.reset s).f = s.f ∧ (UKF.reset s).h = s.h ∧
    (UKF.predict C (UKF.reset s) u dt).xHat =
      (UKF.predict C (UKF.construct C f₀ h₀ std mstd dt₀) u dt).xHat ∧
    (UKF.predict C (UKF.reset s) u dt).P =
      (UKF.predict C (UKF.construct C f₀ h₀ std mstd dt₀) u dt).P ∧
    (UKF.predict C (UKF.reset s) u dt).discR =
      (UKF.predict C (UKF.construct C f₀ h₀ std mstd dt₀) u dt).discR ∧
    (UKF.predict C (UKF.reset s) u dt).sigmasF =
      (UKF.predict C (UKF.construct C f₀ h₀ std mstd dt₀) u dt).sigmasF := by
  refine ⟨rfl, rfl, rfl, rfl, rfl, rfl, rfl, ?_, ?_, ?_, ?_⟩ <;>
    simp only [UKF.predict, UKF.construct, UKF.reset, hf, hQ, hR]

/-- C6 witness: after resetting the scalar scenario's post-`SetP` filter,
the next `Predict` computes the same covariance as on a fresh instance. -/
theorem reset_clears_state_witness :
    (UKF.predict scalarCollab (UKF.reset c4S0) 0 1).P =
      (UKF.predict scalarCollab
        (UKF.construct scalarCollab c4F c4H (fun _ => 0) (fun _ => 1) 1)
        0 1).P :=
  (reset_clears_state scalarCollab c4S0 c4F c4H (fun _ => 0) (fun _ => 1)
    1 0 1 rfl rfl rfl).2.2.2.2.2.2.2.2.1

/-- C4: in the scalar scenario (`States = Inputs = Outputs = 1`,
`f(x,u) = 0`, `h(x,u) = x`, process-noise std 0, `Rd = Rc = 1`, initial
`x̂ = 0`, `P = 4`), `Predict(0, 1)` leaves `x̂ = 0` and `P = 4`, and the
subsequent `Correct(0, 2, h, 1)` yields gain `K = 4/5`, `x̂ = 8/5` and
`P = 4/5`. -/
theorem scalar_scenario :
    c4S1.xHat 0 0 = 0 ∧ c4S1.P 0 0 = 4 ∧
    UKF.corrK scalarCollab c4S1 0 c4H (sc1 1) 0 0 = 4/5 ∧
    c4S2.xHat 0 0 = 8/5 ∧ c4S2.P 0 0 = 4/5 := by
  refine ⟨?_, ?_, ?_, ?_, ?_⟩ <;>
  norm_num [c4S2, c4S1, c4S0, c4F, c4H, UKF.correctWith, UKF.corrK,
    UKF.corrPy, UKF.corrYhat, UKF.corrSigmasH, corrPxy_eq_sum, UKF.predict,
    UKF.construct, UKF.reset, UKF.setP, scalarCollab, scalarSigmaGen, specUT,
    rungeKutta4, discAQ1, discRStub, diagSolve, makeCovMatrix, col, ratSqrt,
    sc1, sum_fin_sigma1, Matrix.add_apply, Matrix.sub_apply,
    Matrix.smul_apply, Matrix.mul_apply, Matrix.transpose_apply,
    Matrix.zero_apply, Matrix.diagonal_apply, Matrix.of_apply,
    Fin.sum_univ_one, smul_eq_mul, vec3_app0, vec3_app1, vec3_app2,
    Matrix.neg_apply, Int.natAbs_ofNat]

/-- `Predict` reads only `f`, `x̂`, `P`, `Qc` and `Rc` from the filter
state, so two states agreeing on those fields predict the same `x̂` and
`P`. -/
lemma predict_fields_congr {S I O : ℕ} (C : Collab S I O) (s t : UKF S I O)
    (u : Vec I) (dt : ℚ) (hf : s.f = t.f) (hx : s.xHat = t.xHat)
    (hP : s.P = t.P) (hQ : s.contQ = t.contQ) (hR : s.contR = t.contR) :
    (UKF.predict C s u dt).xHat = (UKF.predict C t u dt).xHat ∧
    (UKF.predict C s u dt).P = (UKF.predict C t u dt).P := by
  simp only [UKF.predict, hf, hx, hP, hQ, hR]
  exact ⟨trivial, trivial⟩

/-- After the first `Predict` of the contracting scenario, `x̂` is still
zero. -/
lemma c9S1_xHat_eval : c9S1.xHat = (0 : Vec 1) := by
  refine mat1_ext _ _ ?_
  norm_num [c9S1, c9S0, c9F, c4H, UKF.predict, UKF.construct, UKF.reset,
    UKF.setP, scalarCollab, scalarSigmaGen, specUT, rungeKutta4, discAQ1,
    discRStub, makeCovMatrix, col, ratSqrt, sc1, sum_fin_sigma1,
    Matrix.add_apply, Matrix.sub_apply, Matrix.smul_apply, Matrix.mul_apply,
    Matrix.transpose_apply, Matrix.zero_apply, Matrix.diagonal_apply,
    Matrix.of_apply, Fin.sum_univ_one, smul_eq_mul, vec3_app0, vec3_app1,
    vec3_app2, Matrix.neg_apply, Int.natAbs_ofNat]

/-- After the first `Predict` of the contracting scenario
(`f(x,u) = −x`, `P = 1`, process-noise std `1/2`, `dt = 1`), the covariance
is `(3/8)² + 1/4 = 25/64`. -/
lemma c9S1_P_eval : c9S1.P = sc1 (25/64) := by
  refine mat1_ext _ _ ?_
  norm_num [c9S1, c9S0, c9F, c4H, UKF.predict, UKF.construct, UKF.reset,
    UKF.setP, scalarCollab, scalarSigmaGen, specUT, rungeKutta4, discAQ1,
    discRStub, makeCovMatrix, col, ratSqrt, sc1, sum_fin_sigma1,
    Matrix.add_apply, Matrix.sub_apply, Matrix.smul_apply, Matrix.mul_apply,
    Matrix.transpose_apply, Matrix.zero_apply, Matrix.diagonal_apply,
    Matrix.of_apply, Fin.sum_univ_one, smul_eq_mul, vec3_app0, vec3_app1,
    vec3_app2, Matrix.neg_apply, Int.natAbs_ofNat]

/-- A state with the same model as the contracting scenario and the
covariance reached after its first `Predict`. -/
def c9T : UKF 1 1 1 := UKF.setP c9S0 (sc1 (25/64))

/-- C9 counterexample: a system with strictly positive process-noise
standard deviation (`1/2`) and contracting dynamics `f(x,u) = −x`, on which
two consecutive `Predict(0, 1)` calls with no intervening `Correct`
strictly decrease the trace of `P` (from `25/64` to `1249/4096`). -/
theorem trace_monotonicity_counterexample :
    (∀ i : Fin 1, 0 < ((fun _ => (1:ℚ)/2) : Fin 1 → ℚ) i) ∧
    Matrix.trace c9S2.P < Matrix.trace c9S1.P := by
  refine ⟨fun i => by norm_num, ?_⟩
  have h2 : c9S2.P = (UKF.predict scalarCollab c9T 0 1).P :=
    (predict_fields_congr scalarCollab c9S1 c9T 0 1 rfl c9S1_xHat_eval
      c9S1_P_eval rfl rfl).2
  rw [Matrix.trace_fin_one, Matrix.trace_fin_one, h2, c9S1_P_eval]
  norm_num [c9T, c9S0, c9F, c4H, UKF.predict, UKF.construct, UKF.reset,
    UKF.setP, scalarCollab, scalarSigmaGen, specUT, rungeKutta4, discAQ1,
    discRStub, makeCovMatrix, col, ratSqrt, sc1, sum_fin_sigma1,
    Matrix.add_apply, Matrix.sub_apply, Matrix.smul_apply, Matrix.mul_apply,
    Matrix.transpose_apply, Matrix.zero_apply, Matrix.diagonal_apply,
    Matrix.of_apply, Fin.sum_univ_one, smul_eq_mul, vec3_app0, vec3_app1,
    vec3_app2, Matrix.neg_apply, Int.natAbs_ofNat]

/-- C9 (amended): a single `Predict` never decreases the trace of `P`
provided the discretized process noise `Qd` has nonnegative trace and the
unscented-transform covariance of the propagated sigma points has trace at
least that of the current `P` (non-contracting propagation); with
contracting dynamics the trace can decrease even under positive process
noise. -/
theorem predict_trace_monotone {S I O : ℕ} (C : Collab S I O)
    (s : UKF S I O) (u : Vec I) (dt : ℚ)
    (hUT : Matrix.trace s.P ≤ Matrix.trace
      (C.ut (Matrix.of fun i j =>
          (C.rungeKutta s.f (col (C.pts.sigmaPoints s.xHat s.P) j) u dt) i 0)
        C.pts.Wm C.pts.Wc).2)
    (hQd : 0 ≤ Matrix.trace
      (C.discretizeAQ (C.numericalJacobianX s.f s.xHat u) s.contQ dt).2) :
    Matrix.trace s.P ≤ Matrix.trace ((UKF.predict C s u dt).P) := by
  have hsum : Matrix.trace ((UKF.predict C s u dt).P) =
      Matrix.trace
        (C.ut (Matrix.of fun i j =>
            (C.rungeKutta s.f (col (C.pts.sigmaPoints s.xHat s.P) j) u dt) i 0)
          C.pts.Wm C.pts.Wc).2 +
      Matrix.trace
        (C.discretizeAQ (C.numericalJacobianX s.f s.xHat u) s.contQ dt).2 :=
    Matrix.trace_add _ _
  rw [hsum]
  linarith

/-- In the scalar zero-dynamics scenario the propagated sigma points carry
the full covariance: the unscented-transform trace equals the current
trace `4`. -/
lemma c9wit_ut_fact : Matrix.trace c4S0.P ≤ Matrix.trace
    (scalarCollab.ut (Matrix.of fun i j =>
        (scalarCollab.rungeKutta c4S0.f
          (col (scalarCollab.pts.sigmaPoints c4S0.xHat c4S0.P) j) 0 1) i 0)
      scalarCollab.pts.Wm scalarCollab.pts.Wc).2 := by
  rw [Matrix.trace_fin_one, Matrix.trace_fin_one]
  norm_num [c4S0, c4F, c4H, UKF.construct, UKF.reset,
    UKF.setP, scalarCollab, scalarSigmaGen, specUT, rungeKutta4, discAQ1,
    discRStub, makeCovMatrix, col, ratSqrt, sc1, sum_fin_sigma1,
    Matrix.add_apply, Matrix.sub_apply, Matrix.smul_apply, Matrix.mul_apply,
    Matrix.transpose_apply, Matrix.zero_apply, Matrix.diagonal_apply,
    Matrix.of_apply, Fin.sum_univ_one, smul_eq_mul, vec3_app0, vec3_app1,
    vec3_app2, Matrix.neg_apply, Int.natAbs_ofNat]

/-- In the scalar zero-process-noise scenario the discretized `Qd` has
trace `0`. -/
lemma c9wit_q_fact : 0 ≤ Matrix.trace
    (scalarCollab.discretizeAQ
      (scalarCollab.numericalJacobianX c4S0.f c4S0.xHat 0) c4S0.contQ 1).2 := by
  rw [Matrix.trace_fin_one]
  norm_num [c4S0, c4F, c4H, UKF.construct, UKF.reset,
    UKF.setP, scalarCollab, scalarSigmaGen, specUT, rungeKutta4, discAQ1,
    discRStub, makeCovMatrix, col, ratSqrt, sc1, sum_fin_sigma1,
    Matrix.add_apply, Matrix.sub_apply, Matrix.smul_apply, Matrix.mul_apply,
    Matrix.transpose_apply, Matrix.zero_apply, Matrix.diagonal_apply,
    Matrix.of_apply, Fin.sum_univ_one, smul_eq_mul, vec3_app0, vec3_app1,
    vec3_app2, Matrix.neg_apply, Int.natAbs_ofNat]

/-- C9 (amended) witness: on the scalar zero-dynamics filter, a `Predict`
does not decrease the trace of `P`. -/
theorem predict_trace_monotone_witness :
    Matrix.trace c4S0.P ≤ Matrix.trace ((UKF.predict scalarCollab c4S0 0 1).P) :=
  predict_trace_monotone scalarCollab c4S0 0 1 c9wit_ut_fact c9wit_q_fact

end Frc
